import Mathlib

/-!
Verification development for the masterBot agent-orchestration runtime.

Each component of the runtime that the claims touch is shallowly embedded
below as executable Lean definitions translated from the TypeScript source:

* a JSON value model standing for the values `JSON.parse` / `JSON.stringify`
  operate on (numbers are modelled as integers; strings are sequences of
  Unicode scalar values, matching JS strings on the BMP);
* `ShortTermMemory` and `SessionMemoryManager` (src/memory/short-term.ts);
* `ContextManager` (src/core/context-manager.ts);
* `McpSkillSource` (src/skills/mcp-source.ts);
* `LongTermMemory` (src/memory/long-term.ts);
* `DAGExecutor` / `TaskRepository` (src/core/dag-executor.ts, task-repository.ts);
* the tool-call handling loop of `Agent.run` (src/core/agent.ts);
* `parseActionsFromMarkdown` of the SKILL.md parser (src/skills/registry.ts).

Timestamps (`Date.now()`) are explicit `Nat` parameters.  Maps are modelled
as insertion-ordered association lists, matching the iteration order of a
JS `Map`.  Thrown exceptions are modelled with `Except`/`Option`.
-/

/-! ## JSON value model

`Json` models the JSON-representable JS values handled by the runtime.
Mutual inductives are used so that equality is decidable and recursion is
structural.  JSON numbers are restricted to integers: every concrete value
appearing in the claims is integral, and none of the settled properties
depends on float arithmetic. -/

mutual
inductive Json where
  | null : Json
  | bool (b : Bool) : Json
  | num (n : Int) : Json
  | str (s : String) : Json
  | arr (xs : JsonArr) : Json
  | obj (fields : JsonObj) : Json
  deriving DecidableEq

inductive JsonArr where
  | nil : JsonArr
  | cons (hd : Json) (tl : JsonArr) : JsonArr
  deriving DecidableEq

inductive JsonObj where
  | nil : JsonObj
  | cons (key : String) (val : Json) (tl : JsonObj) : JsonObj
  deriving DecidableEq
end

/-- Hexadecimal digit used by `JSON.stringify` control-character escapes. -/
def hexDigit (n : Nat) : Char :=
  if n < 10 then Char.ofNat ('0'.toNat + n) else Char.ofNat ('a'.toNat + (n - 10))

/-- Escape of one character inside a JSON string literal (as `JSON.stringify`).
Decided on the character code: 34 is the double quote, 92 the backslash. -/
def escChar (c : Char) : List Char :=
  let n := c.toNat
  if n = 34 then ['\\', '"']
  else if n = 92 then ['\\', '\\']
  else if n = 10 then ['\\', 'n']
  else if n = 9 then ['\\', 't']
  else if n = 13 then ['\\', 'r']
  else if n = 8 then ['\\', 'b']
  else if n = 12 then ['\\', 'f']
  else if n < 32 then ['\\', 'u', '0', '0', hexDigit (n / 16), hexDigit (n % 16)]
  else [c]

/-- Body of a JSON string literal for `s` (escapes applied, no quotes). -/
def escapeStr (s : String) : String :=
  ⟨s.data.foldr (fun c acc => escChar c ++ acc) []⟩

mutual
/-- `JSON.stringify` on the modelled values. -/
def stringify : Json → String
  | .null => "null"
  | .bool b => if b then "true" else "false"
  | .num n => toString n
  | .str s => "\"" ++ escapeStr s ++ "\""
  | .arr xs => "[" ++ stringifyArr xs ++ "]"
  | .obj fs => "\x7b" ++ stringifyObj fs ++ "\x7d"

/-- Comma-separated stringification of array elements. -/
def stringifyArr : JsonArr → String
  | .nil => ""
  | .cons x .nil => stringify x
  | .cons x tl => stringify x ++ "," ++ stringifyArr tl

/-- Comma-separated stringification of object fields. -/
def stringifyObj : JsonObj → String
  | .nil => ""
  | .cons k v .nil => "\"" ++ escapeStr k ++ "\":" ++ stringify v
  | .cons k v tl => "\"" ++ escapeStr k ++ "\":" ++ stringify v ++ "," ++ stringifyObj tl
end

/-- JSON whitespace characters. -/
def isJsonWs (c : Char) : Bool :=
  c = ' ' || c = '\t' || c = '\n' || c = '\r'

/-- Drop leading JSON whitespace. -/
def skipWs (cs : List Char) : List Char :=
  cs.dropWhile isJsonWs

/-- ASCII decimal digit test, on the character code (48 = '0', 57 = '9'). -/
def isDigitCh (c : Char) : Bool :=
  48 ≤ c.toNat && c.toNat ≤ 57

/-- Numeric value of a list of decimal digits, most significant first. -/
def digitsToNat : Nat → List Char → Nat
  | acc, [] => acc
  | acc, d :: ds => digitsToNat (acc * 10 + (d.toNat - 48)) ds

/-- Value of one hexadecimal digit, if it is one (codes: 48-57 are digits,
97-102 lower-case letters, 65-70 upper-case letters). -/
def hexVal (c : Char) : Option Nat :=
  let n := c.toNat
  if 48 ≤ n ∧ n ≤ 57 then some (n - 48)
  else if 97 ≤ n ∧ n ≤ 102 then some (n - 87)
  else if 65 ≤ n ∧ n ≤ 70 then some (n - 55)
  else none

/-- Consume an expected literal sequence of characters. -/
def expectChars : List Char → List Char → Option (List Char)
  | [], cs => some cs
  | e :: es, c :: cs => if c = e then expectChars es cs else none
  | _ :: _, [] => none

/-- Decoding of a single-character escape (`\\n`, `\\t`, ...); `none` for an
escape `JSON.parse` rejects. -/
def escDecode (e : Char) : Option Char :=
  if e = '"' ∨ e = '\\' ∨ e = '/' then some e
  else if e = 'n' then some '\n'
  else if e = 't' then some '\t'
  else if e = 'r' then some '\r'
  else if e = 'b' then some '\x08'
  else if e = 'f' then some '\x0c'
  else none

/-- Four hexadecimal digits of a `\\uXXXX` escape, with the remainder. -/
def hexQuad (cs : List Char) : Option (Nat × List Char) :=
  match cs with
  | h1 :: h2 :: h3 :: h4 :: rest =>
    match hexVal h1, hexVal h2, hexVal h3, hexVal h4 with
    | some a, some b, some c, some d => some ((((a * 16) + b) * 16 + c) * 16 + d, rest)
    | _, _, _, _ => none
  | _ => none

/-- Parse the body of a JSON string literal (opening quote already consumed). -/
def parseStrChars : Nat → List Char → Option (List Char × List Char)
  | 0, _ => none
  | _ + 1, [] => none
  | fuel + 1, c :: rest =>
    if c = '"' then some ([], rest)
    else if c = '\\' then
      match rest with
      | 'u' :: tail =>
        match hexQuad tail with
        | some (code, tail2) =>
          (parseStrChars fuel tail2).map (fun p => (Char.ofNat code :: p.1, p.2))
        | none => none
      | e :: tail =>
        match escDecode e with
        | some ch => (parseStrChars fuel tail).map (fun p => (ch :: p.1, p.2))
        | none => none
      | [] => none
    else (parseStrChars fuel rest).map (fun p => (c :: p.1, p.2))

/-- Parse an integer JSON number (leading character is a digit or minus). -/
def parseNum (cs : List Char) : Option (Json × List Char) :=
  match cs with
  | '-' :: rest =>
    let ds := rest.takeWhile isDigitCh
    if ds = [] then none
    else some (.num (-(digitsToNat 0 ds : Int)), rest.dropWhile isDigitCh)
  | _ =>
    let ds := cs.takeWhile isDigitCh
    if ds = [] then none
    else some (.num (digitsToNat 0 ds : Int), cs.dropWhile isDigitCh)

mutual
/-- Fuel-indexed JSON value parser (model of `JSON.parse`). -/
def parseVal : Nat → List Char → Option (Json × List Char)
  | 0, _ => none
  | fuel + 1, cs =>
    match skipWs cs with
    | [] => none
    | c :: rest =>
      if c = '"' then
        (parseStrChars fuel rest).map (fun p => (Json.str ⟨p.1⟩, p.2))
      else if c = '[' then
        (parseArrElems fuel rest).map (fun p => (Json.arr p.1, p.2))
      else if c = '{' then
        (parseObjFields fuel rest).map (fun p => (Json.obj p.1, p.2))
      else if c = 'n' then (expectChars ['u', 'l', 'l'] rest).map (fun r => (Json.null, r))
      else if c = 't' then (expectChars ['r', 'u', 'e'] rest).map (fun r => (Json.bool true, r))
      else if c = 'f' then (expectChars ['a', 'l', 's', 'e'] rest).map (fun r => (Json.bool false, r))
      else if c = '-' || isDigitCh c then parseNum (c :: rest)
      else none

/-- Parse the elements of a JSON array (opening bracket already consumed). -/
def parseArrElems : Nat → List Char → Option (JsonArr × List Char)
  | 0, _ => none
  | fuel + 1, cs =>
    match skipWs cs with
    | ']' :: rest => some (.nil, rest)
    | cs' =>
      match parseVal fuel cs' with
      | none => none
      | some (v, r) =>
        match skipWs r with
        | ',' :: r2 =>
          match parseArrElems fuel r2 with
          | some (tl, r3) => some (.cons v tl, r3)
          | none => none
        | ']' :: r2 => some (.cons v .nil, r2)
        | _ => none

/-- Parse the fields of a JSON object (opening brace already consumed). -/
def parseObjFields : Nat → List Char → Option (JsonObj × List Char)
  | 0, _ => none
  | fuel + 1, cs =>
    match skipWs cs with
    | '{' :: _ => none
    | '}' :: rest => some (.nil, rest)
    | '"' :: rest =>
      match parseStrChars fuel rest with
      | none => none
      | some (kChars, r) =>
        match skipWs r with
        | ':' :: r2 =>
          match parseVal fuel r2 with
          | none => none
          | some (v, r3) =>
            match skipWs r3 with
            | ',' :: r4 =>
              match parseObjFields fuel r4 with
              | some (tl, r5) => some (.cons ⟨kChars⟩ v tl, r5)
              | none => none
            | '}' :: r4 => some (.cons ⟨kChars⟩ v .nil, r4)
            | _ => none
        | _ => none
    | _ => none
end

/-- Model of `JSON.parse`: `none` means the call throws a `SyntaxError`. -/
def jsonParse (s : String) : Option Json :=
  match parseVal (s.length * 2 + 16) s.data with
  | some (j, rest) => if skipWs rest = [] then some j else none
  | none => none

/-- First field of a JS object with the given key (`undefined` is `none`). -/
def JsonObj.find : JsonObj → String → Option Json
  | .nil, _ => none
  | .cons k v tl, key => if k = key then some v else tl.find key

/-- Property access `j.key` on an arbitrary JS value: objects yield the field,
everything else yields `undefined` (`none`). -/
def jsonGet (j : Json) (key : String) : Option Json :=
  match j with
  | .obj fs => fs.find key
  | _ => none

/-- JS truthiness of a modelled JSON value. -/
def jsTruthy : Json → Bool
  | .null => false
  | .bool b => b
  | .num n => n ≠ 0
  | .str s => s ≠ ""
  | .arr _ => true
  | .obj _ => true

/-- JS truthiness of a possibly-`undefined` value. -/
def jsTruthyOpt : Option Json → Bool
  | none => false
  | some j => jsTruthy j

/-- Substring test, the model of `String.prototype.includes`. -/
def listContainsSub (hay needle : List Char) : Bool :=
  match hay with
  | [] => needle = []
  | _ :: tl => (expectChars needle hay).isSome || listContainsSub tl needle

/-- String version of `listContainsSub`. -/
def strIncludes (hay needle : String) : Bool :=
  listContainsSub hay.data needle.data

/-- The ASCII part of the JS whitespace class (`\s`, `trim`). -/
def isJsWs (c : Char) : Bool :=
  c = ' ' || c = '\t' || c = '\n' || c = '\r' || c = '\x0b' || c = '\x0c'

/-- `String.prototype.trim` (ASCII whitespace). -/
def jsTrim (s : String) : String :=
  ⟨((s.data.dropWhile isJsWs).reverse.dropWhile isJsWs).reverse⟩

example : jsonParse "123" = some (.num 123) := by decide
example : jsonParse "\x7b\"tool\":\"a.b\",\"params\":\x7b\x7d\x7d" =
    some (.obj (.cons "tool" (.str "a.b") (.cons "params" (.obj .nil) .nil))) := by decide
example : jsonParse "\x7b\"x\":" = none := by decide
example : strIncludes "路径，可选" "可选" = true := by decide
example : strIncludes "路径" "可选" = false := by decide

/-! ## Insertion-ordered association maps

A JS `Map` iterates in insertion order; `set` on an existing key updates the
value in place, `set` on a fresh key appends, `delete` removes the single
entry with that key.  JS plain objects used as dictionaries behave the same
way for string keys. -/

/-- `Map.get` / property read. -/
def mapGet {β : Type} : List (String × β) → String → Option β
  | [], _ => none
  | (k, v) :: tl, key => if k = key then some v else mapGet tl key

/-- `Map.set` / property write: update in place, or append when absent. -/
def mapSet {β : Type} : List (String × β) → String → β → List (String × β)
  | [], key, v => [(key, v)]
  | (k, v0) :: tl, key, v => if k = key then (k, v) :: tl else (k, v0) :: mapSet tl key v

/-- `Map.delete`: remove the entry with the key, if any. -/
def mapDelete {β : Type} : List (String × β) → String → List (String × β)
  | [], _ => []
  | (k, v) :: tl, key => if k = key then tl else (k, v) :: mapDelete tl key

/-- Remove the first occurrence of a string from a list. -/
def eraseStr : List String → String → List String
  | [], _ => []
  | y :: tl, x => if y = x then tl else y :: eraseStr tl x

/-! ## ShortTermMemory (src/memory/short-term.ts)

The per-session store maps string keys to `{value, expiresAt?}` entries.
Values are opaque (`unknown` in the source), so the store is parametric in
the value type.  `Date.now()` is the explicit `now` argument. -/

namespace ShortTerm

/-- One store entry: `{ value, expiresAt?: number }`. -/
structure Entry (α : Type) where
  value : α
  expiresAt : Option Nat
  deriving DecidableEq

/-- The `store` map of a `ShortTermMemory` instance. -/
abbrev Store (α : Type) := List (String × Entry α)

/-- `ShortTermMemory.get`: expired entries are deleted and read as absent.
The source guard is `entry.expiresAt && Date.now() > entry.expiresAt`; a
stored `expiresAt` of `0` is falsy in JS, hence the `exp ≠ 0` conjunct.
Returns the result together with the updated store. -/
def get {α : Type} (now : Nat) (store : Store α) (key : String) : Option α × Store α :=
  match mapGet store key with
  | none => (none, store)
  | some entry =>
    match entry.expiresAt with
    | some exp =>
      if exp ≠ 0 ∧ now > exp then (none, mapDelete store key)
      else (some entry.value, store)
    | none => (some entry.value, store)

/-- `ShortTermMemory.set`: `expiresAt = ttl ? Date.now() + ttl * 1000 :
undefined`; a `ttl` of `0` (or absent) is falsy, so no expiry is stored. -/
def set {α : Type} (now : Nat) (store : Store α) (key : String) (value : α)
    (ttl : Option Nat) : Store α :=
  mapSet store key
    { value := value
      expiresAt :=
        match ttl with
        | some t => if t ≠ 0 then some (now + t * 1000) else none
        | none => none }

end ShortTerm

/-! ## SessionMemoryManager (src/memory/short-term.ts)

Only the keys of the `sessions` map matter to the claims (its values are
fresh `ShortTermMemory` instances), so the map is modelled by its
insertion-ordered key list.  `accessOrder` maps session id to the last
access timestamp. -/

namespace SessionMgr

/-- The mutable fields of a `SessionMemoryManager`. -/
structure ManagerState where
  sessions : List String
  accessOrder : List (String × Nat)
  maxSessions : Nat
  deriving DecidableEq

/-- `deleteSession`: drop the id from both maps (the stored memory is
cleared, which does not affect the key structure). -/
def deleteSession (s : ManagerState) (id : String) : ManagerState :=
  { s with
    sessions := eraseStr s.sessions id
    accessOrder := mapDelete s.accessOrder id }

/-- Insert an entry into a list sorted by ascending timestamp, after any
entries with an equal timestamp. -/
def insertByTime (x : String × Nat) : List (String × Nat) → List (String × Nat)
  | [] => [x]
  | y :: tl => if x.2 < y.2 then x :: y :: tl else y :: insertByTime x tl

/-- Stable ascending sort by timestamp, the model of
`[...accessOrder.entries()].sort((a, b) => a[1] - b[1])` (JS `sort` is
stable). -/
def sortByTime (l : List (String × Nat)) : List (String × Nat) :=
  l.foldl (fun acc x => insertByTime x acc) []

/-- `evictLRU`: delete the `Math.max(1, Math.floor(maxSessions * 0.1))`
oldest-accessed sessions.  `Math.floor(maxSessions * 0.1)` is modelled by
exact integer division `maxSessions / 10`; the two agree on every
`maxSessions` at which the claims are settled. -/
def evictLRU (s : ManagerState) : ManagerState :=
  let toEvict := max 1 (s.maxSessions / 10)
  let sorted := sortByTime s.accessOrder
  ((sorted.take toEvict).map Prod.fst).foldl (fun st id => deleteSession st id) s

/-- `getSession`: touch the access time; on first touch, evict when the map
is at (or beyond) `maxSessions`, then allocate. -/
def getSession (now : Nat) (id : String) (s : ManagerState) : ManagerState :=
  let s1 := { s with accessOrder := mapSet s.accessOrder id now }
  if id ∈ s1.sessions then s1
  else
    let s2 := if s1.sessions.length ≥ s1.maxSessions then evictLRU s1 else s1
    { s2 with sessions := s2.sessions ++ [id] }

/-- A manager as constructed: empty maps. -/
def initialManager (maxSessions : Nat) : ManagerState :=
  { sessions := [], accessOrder := [], maxSessions := maxSessions }

/-- Run a sequence of `getSession` calls, each tagged with its
`Date.now()` timestamp. -/
def runCalls (maxSessions : Nat) (calls : List (Nat × String)) : ManagerState :=
  calls.foldl (fun s c => getSession c.1 c.2 s) (initialManager maxSessions)

/-- The eviction batch size mandated by the claim's words: bottom 10%
rounded up, minimum 1 (for comparison against the source's rounding). -/
def claimedEvictCount (maxSessions : Nat) : Nat :=
  max 1 ((maxSessions + 9) / 10)

end SessionMgr

/-! ## ContextManager (src/core/context-manager.ts)

Messages are modelled with string content; a non-string content or a
tool-call list enters `estimateTokens` only through `JSON.stringify`, so a
structured content is represented by its serialized string and an optional
tool-call list by its serialized JSON (`toolCalls`).  `trimMessages` is
embedded on its summariser-free path: the optional `llm` argument is
absent, so a non-empty trimmed set is summarised by `fallbackSummary`.
The branch structure is identical with an `llm` present. -/

namespace Ctx

/-- Message roles. -/
inductive Role where
  | system | user | assistant | tool
  deriving DecidableEq

/-- A chat message as seen by the context manager. -/
structure Message where
  role : Role
  content : String
  toolCalls : Option String := none
  toolCallId : Option String := none
  deriving DecidableEq

/-- `Math.ceil(n / 3)` on a natural number. -/
def ceil3 (n : Nat) : Nat := (n + 2) / 3

/-- Token estimate of a single message: `ceil(content.length / 3)` plus the
same for the serialized tool calls when present. -/
def estimateMsg (m : Message) : Nat :=
  ceil3 m.content.length +
    (match m.toolCalls with
     | some s => ceil3 s.length
     | none => 0)

/-- `estimateTokens`: sum over the messages. -/
def estimateTokens (ms : List Message) : Nat :=
  (ms.map estimateMsg).sum

/-- The backwards walk of `splitHistory`: `msgs` is the reversed history
still to visit, `i` the index of its head in the original history, `kept`
the token count kept so far.  Returns the split index: `i + 1` on the first
message that no longer fits, `0` when every message fits. -/
def splitWalk (keepBudget : Nat) : List Message → Nat → Nat → Nat
  | [], _, _ => 0
  | m :: rest, i, kept =>
    let t := estimateMsg m
    if kept + t > keepBudget then i + 1
    else splitWalk keepBudget rest (i - 1) (kept + t)

/-- `splitHistory`: keep a suffix of history within 80% of the budget
(`Math.floor(tokenBudget * 0.8)` is exact integer arithmetic here), but
always keep at least the final two messages.  Returns `(trimmed, kept)`. -/
def splitHistory (history : List Message) (tokenBudget : Nat) :
    List Message × List Message :=
  let keepBudget := tokenBudget * 4 / 5
  let s0 := splitWalk keepBudget history.reverse (history.length - 1) 0
  let splitIndex := if s0 + 1 ≥ history.length then history.length - 2 else s0
  (history.take splitIndex, history.drop splitIndex)

/-- `fallbackSummary`: list up to five most-recent user-message prefixes
(100 characters each, empty ones dropped) with a count. -/
def fallbackSummary (messages : List Message) : Message :=
  let userMessages := messages.filter (fun m => m.role = .user)
  let topics :=
    ((userMessages.drop (userMessages.length - 5)).map
        (fun m => m.content.take 100)).filter (fun s => s ≠ "")
  { role := .system
    content := "[之前的对话涉及以下主题：" ++ String.intercalate "；" topics ++
      "。共 " ++ toString messages.length ++ " 条消息已被压缩。]" }

/-- `trimMessages` (summariser-free path).  The budget is an integer:
`reservedTokens` may exceed `maxTokens` in a degenerate configuration. -/
def trimMessages (maxTokens reservedTokens : Nat) (systemMessage : Message)
    (history currentMessages : List Message) : List Message :=
  let budget : Int := (maxTokens : Int) - (reservedTokens : Int)
  let fixedTokens := estimateTokens (systemMessage :: currentMessages)
  if (fixedTokens : Int) ≥ budget then systemMessage :: currentMessages
  else
    let historyBudget : Int := budget - (fixedTokens : Int)
    let historyTokens := estimateTokens history
    if (historyTokens : Int) ≤ historyBudget then
      systemMessage :: (history ++ currentMessages)
    else
      let p := splitHistory history historyBudget.toNat
      if p.1 = [] then systemMessage :: (p.2 ++ currentMessages)
      else systemMessage :: fallbackSummary p.1 :: (p.2 ++ currentMessages)

end Ctx

/-! ## McpSkillSource (src/skills/mcp-source.ts)

Two aspects are embedded: the text extraction of `execute` on a successful
`callTool` response, and the reconnect scheduling state machine. -/

namespace Mcp

/-- One content block of a `callTool` response: a text block or some other
block kind (image, resource, ...). -/
inductive Block where
  | text (s : String)
  | other (kind : String)
  deriving DecidableEq

/-- A `callTool` response: `content` is `none` when the field is absent or
not an array. -/
structure CallToolResult where
  content : Option (List Block)
  deriving DecidableEq

/-- What `execute` returns on a successful call: an extracted string or the
raw response object. -/
inductive ExecResult where
  | str (s : String)
  | raw (r : CallToolResult)
  deriving DecidableEq

/-- The text of a text block. -/
def textOf : Block → Option String
  | .text s => some s
  | .other _ => none

/-- The tail of `McpSkillSource.execute` on a successful `callTool`: filter
the text blocks; one text block yields its text, otherwise the texts are
joined with newlines; without a content array the raw response is
returned. -/
def extractResult (result : CallToolResult) : ExecResult :=
  match result.content with
  | some blocks =>
    let texts := blocks.filterMap textOf
    if texts.length = 1 then .str (texts.headI) else .str (String.intercalate "\n" texts)
  | none => .raw result

/-- The reconnect-relevant fields of a `McpSkillSource`.  `reconnectTimer`
holds the delay of the pending timer, `none` when no timer is pending. -/
structure ReconnState where
  connected : Bool
  reconnectAttempts : Nat
  reconnectTimer : Option Nat
  deriving DecidableEq

/-- `maxReconnectDelay = 60_000`. -/
def maxReconnectDelay : Nat := 60000

/-- `scheduleReconnect`: no-op when a timer is already pending; otherwise
bump the attempt count `n` and schedule after
`min(5000 * 2^(n-1), maxReconnectDelay)` ms. -/
def scheduleReconnect (s : ReconnState) : ReconnState :=
  if s.reconnectTimer.isSome then s
  else
    let n := s.reconnectAttempts + 1
    { s with
      reconnectAttempts := n
      reconnectTimer := some (min (5000 * 2 ^ (n - 1)) maxReconnectDelay) }

/-- The failure branch of `connect`: mark disconnected, schedule a
reconnect (the error is rethrown to the caller). -/
def connectFail (s : ReconnState) : ReconnState :=
  scheduleReconnect { s with connected := false }

/-- The success branch of `connect`: mark connected, reset the attempt
count. -/
def connectSuccess (s : ReconnState) : ReconnState :=
  { s with connected := true, reconnectAttempts := 0 }

/-- The reconnect timer firing: the timer slot is cleared before `connect`
is retried. -/
def timerFire (s : ReconnState) : ReconnState :=
  { s with reconnectTimer := none }

/-- `destroy`: cancel a pending timer and disconnect. -/
def destroy (s : ReconnState) : ReconnState :=
  { s with reconnectTimer := none, connected := false }

/-- The state of a freshly constructed source. -/
def initialState : ReconnState :=
  { connected := false, reconnectAttempts := 0, reconnectTimer := none }

/-- The state after `n` consecutive failed connection attempts starting
from `start`: the first failure happens directly, each later one after the
pending timer fires. -/
def failTrace (start : ReconnState) : Nat → ReconnState
  | 0 => start
  | 1 => connectFail start
  | n + 1 => connectFail (timerFire (failTrace start n))

end Mcp

/-! ## LongTermMemory (src/memory/long-term.ts)

The `memories` table is a row list in insertion order.  The embedder is an
optional function from the stored content to the serialized embedding
(`none` models a thrown embedder error, which `set` swallows, leaving the
embedding null).  `CURRENT_TIMESTAMP` and `nanoid()` are explicit
arguments. -/

namespace LongTerm

/-- One row of the `memories` table.  `initialize` declares the schema
defaults `metadata TEXT DEFAULT '{}'` and nullable `session_id`. -/
structure MemRow where
  id : String
  key : Option String
  content : String
  embedding : Option String
  metadata : String
  session_id : Option String
  created_at : Nat
  updated_at : Nat
  deriving DecidableEq

/-- The stored content of a value: strings are stored verbatim, everything
else is `JSON.stringify`ed. -/
def encodeValue (v : Json) : String :=
  match v with
  | .str s => s
  | _ => stringify v

/-- The decoding in `get`: `JSON.parse(row.content)`, falling back to the
raw content when the parse throws. -/
def decodeContent (c : String) : Json :=
  match jsonParse c with
  | some j => j
  | none => .str c

/-- `LongTermMemory.get`: the first row with the key (the `SELECT ... WHERE
key = ?` single-row read), decoded. -/
def get (table : List MemRow) (key : String) : Option Json :=
  match table.find? (fun r => r.key == some key) with
  | none => none
  | some r => some (decodeContent r.content)

/-- `LongTermMemory.set`: upsert by key.  The `UPDATE ... WHERE key = ?`
touches every row carrying the key and changes only `content`, `embedding`
and `updated_at`; the `INSERT` lists only `(id, key, content, embedding)`,
so `metadata` and `session_id` take the schema defaults. -/
def set (newId : String) (now : Nat) (embedFn : Option (String → Option String))
    (table : List MemRow) (key : String) (v : Json) : List MemRow :=
  let content := encodeValue v
  let embeddingJson : Option String :=
    match embedFn with
    | some f => f content
    | none => none
  if table.any (fun r => r.key == some key) then
    table.map (fun r =>
      if r.key == some key then
        { r with content := content, embedding := embeddingJson, updated_at := now }
      else r)
  else
    table ++ [{ id := newId, key := some key, content := content,
                embedding := embeddingJson, metadata := "\x7b\x7d", session_id := none,
                created_at := now, updated_at := now }]

end LongTerm

/-! ## TaskRepository and DAGExecutor (src/core/task-repository.ts,
src/core/dag-executor.ts)

Tasks live in a table ordered by creation.  Dispatch through the skill
registry is the explicit fallible function `exec`; `Except.error` models a
thrown/rejected execution. -/

namespace Dag

/-- Task status. -/
inductive TaskStatus where
  | pending | running | completed | failed
  deriving DecidableEq

/-- One row of the `tasks` table (timestamps omitted; `getTasks` returns
rows in creation order, which the list order models). -/
structure Task where
  id : String
  session_id : String
  description : String
  status : TaskStatus
  dependencies : List String
  result : Option String
  deriving DecidableEq

/-- `TaskRepository.getReadyTasks`: pending tasks of the session whose
dependencies are all completed. -/
def getReadyTasks (tasks : List Task) (sessionId : String) : List Task :=
  let sess := tasks.filter (fun t => t.session_id == sessionId)
  let completedIds := (sess.filter (fun t => t.status == .completed)).map Task.id
  sess.filter (fun t =>
    t.status == .pending && t.dependencies.all (fun dep => completedIds.contains dep))

/-- `TaskRepository.updateStatus`: `UPDATE ... WHERE id = ?`, writing
`result` only when one is given. -/
def updateStatus (tasks : List Task) (id : String) (status : TaskStatus)
    (result : Option String) : List Task :=
  tasks.map (fun t =>
    if t.id == id then
      match result with
      | some r => { t with status := status, result := some r }
      | none => { t with status := status }
    else t)

/-- `DAGExecutor.executeTask`: parse the description as JSON and, when it
carries truthy `tool` and `params` fields, dispatch through the registry.
The `try` block encloses the awaited dispatch, so a thrown dispatch error
is caught by the same `catch` that handles a non-JSON description, and the
function falls through to `"Task noted: <description>"`.  Hence
`executeTask` is total: no rejection ever reaches the caller. -/
def executeTask (exec : Json → Json → Except String String)
    (description : String) : String :=
  match jsonParse description with
  | some parsed =>
    match jsonGet parsed "tool", jsonGet parsed "params" with
    | some tool, some params =>
      if jsTruthy tool && jsTruthy params then
        match exec tool params with
        | .ok r => r
        | .error _ => "Task noted: " ++ description
      else "Task noted: " ++ description
    | _, _ => "Task noted: " ++ description
  | none => "Task noted: " ++ description

/-- One round of `DAGExecutor.execute`: list the ready tasks, flip them to
`running`, dispatch them all, and settle the results.  Because
`executeTask` never rejects, every `Promise.allSettled` outcome is
fulfilled and every ready task is marked `completed` with the returned
string (the source's `task_failed` branch is unreachable from a dispatch
error). -/
def executeRound (exec : Json → Json → Except String String)
    (tasks : List Task) (sessionId : String) : List Task :=
  let ready := getReadyTasks tasks sessionId
  let afterRunning := ready.foldl (fun ts t => updateStatus ts t.id .running none) tasks
  ready.foldl
    (fun ts t => updateStatus ts t.id .completed (some (executeTask exec t.description)))
    afterRunning

end Dag

/-! ## Tool-call handling in Agent.run (src/core/agent.ts)

The per-iteration tool-call loop is embedded.  A tool call carries
`{id, function: {name, arguments}}`.  External effects are explicit
fallible functions in `AgentEnv`; `Except.error` models a thrown/rejected
call.  `handleToolCall` returns the emitted events and appended tool-role
messages of one loop body, or `Except.error` when the body throws outside
any `try` — which aborts `run`. -/

namespace AgentLoop

/-- An accumulated tool call of the assistant turn. -/
structure ToolCall where
  id : String
  name : String
  arguments : String
  deriving DecidableEq

/-- The execution-step events emitted while handling tool calls (payload
fields not inspected by the claims are omitted). -/
inductive Step where
  | thought (content : Option Json)
  | plan (steps : Option Json)
  | action (toolName : String) (input : Json)
  | observation (content : String)
  deriving DecidableEq

/-- A tool-role reply appended to `messages`. -/
structure ToolMsg where
  content : String
  toolCallId : String
  deriving DecidableEq

/-- The collaborators of the loop body.  `exec` is
`executeWithTimeout(() => skillRegistry.executeAction(name, params, ctx))`:
its error covers both a thrown handler error and the 60-second timeout.
`remember` and `search` are the long-term-memory calls, which the loop
awaits outside any `try`. -/
structure AgentEnv where
  hasLongTermMemory : Bool
  exec : String → Json → Except String String
  remember : Option Json → Json → Except String String
  search : Option Json → Json → Except String (List String)

/-- Build a modelled JSON array from a list. -/
def arrOfList : List Json → JsonArr
  | [] => .nil
  | x :: tl => .cons x (arrOfList tl)

/-- `tags.split(',').map(t => t.trim())`. -/
def splitTrim (s : String) : List String :=
  (s.splitOn ",").map (fun t => jsTrim t)

/-- `JSON.stringify` lifted to a possibly-`undefined` value, as a JS
template literal renders it. -/
def stringifyOpt : Option Json → String
  | some j => stringify j
  | none => "undefined"

/-- `x ?? d` for a possibly-absent JSON value. -/
def nullish (x : Option Json) (d : Json) : Json :=
  match x with
  | some .null => d
  | some j => j
  | none => d

/-- The metadata built by the `memory_remember` branch:
`tags ? { tags: tags.split(',').map(trim) } : {}`.  A truthy non-string
`tags` throws (`tags.split` is not a function) outside any `try`. -/
def metadataOfTags (tags : Option Json) : Except String Json :=
  if jsTruthyOpt tags then
    match tags with
    | some (.str s) =>
      .ok (.obj (.cons "tags" (.arr (arrOfList ((splitTrim s).map Json.str))) .nil))
    | _ => .error "tags.split is not a function"
  else .ok (.obj .nil)

/-- The loop body for one tool call (agent.ts lines 422-551).
`JSON.parse(toolCall.function.arguments)` runs before and outside the
`try`, so a parse failure is `Except.error`.  Only the registry execution
of a regular skill call sits inside the `try`/`catch`. -/
def handleToolCall (env : AgentEnv) (tc : ToolCall) :
    Except String (List Step × List ToolMsg) :=
  match jsonParse tc.arguments with
  | none => .error ("Unexpected token in JSON: " ++ tc.arguments)
  | some params =>
    if tc.name = "plan_task" then
      let thought := jsonGet params "thought"
      let steps := jsonGet params "steps"
      .ok ([.thought thought, .plan steps],
           [{ content := "Plan created: " ++ stringifyOpt steps ++
                ". Now precede to execute step 1."
              toolCallId := tc.id }])
    else if tc.name = "memory_remember" ∧ env.hasLongTermMemory then
      match metadataOfTags (jsonGet params "tags") with
      | .error e => .error e
      | .ok metadata =>
        match env.remember (jsonGet params "content") metadata with
        | .error e => .error e
        | .ok memId =>
          let result := "Memory saved (id: " ++ memId ++ ")"
          .ok ([.observation result], [{ content := result, toolCallId := tc.id }])
    else if tc.name = "memory_recall" ∧ env.hasLongTermMemory then
      match env.search (jsonGet params "query") (nullish (jsonGet params "limit") (.num 5)) with
      | .error e => .error e
      | .ok memories =>
        let resultStr :=
          if memories.length > 0 then
            String.intercalate "\n" (memories.map (fun m => "- " ++ m))
          else "No relevant memories found."
        .ok ([.observation resultStr], [{ content := resultStr, toolCallId := tc.id }])
    else
      match env.exec tc.name params with
      | .ok result =>
        .ok ([.action tc.name params, .observation result],
             [{ content := result, toolCallId := tc.id }])
      | .error msg =>
        let errorMsg := "Error: " ++ msg
        .ok ([.action tc.name params, .observation errorMsg],
             [{ content := errorMsg, toolCallId := tc.id }])

/-- `for (const toolCall of response.toolCalls)`: handle each call in
order; an uncaught exception aborts the whole run. -/
def processToolCalls (env : AgentEnv) : List ToolCall →
    Except String (List Step × List ToolMsg)
  | [] => .ok ([], [])
  | tc :: rest =>
    match handleToolCall env tc with
    | .error e => .error e
    | .ok (steps, msgs) =>
      match processToolCalls env rest with
      | .error e => .error e
      | .ok (steps', msgs') => .ok (steps ++ steps', msgs ++ msgs')

end AgentLoop

/-! ## SKILL.md action-parameter parsing (src/skills/registry.ts,
parseActionsFromMarkdown)

The two parameter regexes are embedded as character-level matchers over
single lines of an action body (a parameter bullet is one line; the `.`
class of the patterns never crosses a newline).  `paramRegex` is the bold
form ``- **参数**: `name` (type) - desc``, `altParamRegex` the plain form
``- `name` (type) - desc``.  Both passes of the source are reproduced:
bold matches are collected first, then plain matches that do not collide
with an already-collected name. -/

namespace SkillMd

/-- The `\w` character class of JS regexes. -/
def isWordChar (c : Char) : Bool :=
  ('a' ≤ c && c ≤ 'z') || ('A' ≤ c && c ≤ 'Z') || ('0' ≤ c && c ≤ '9') || c = '_'

/-- The `\s` character class (ASCII part; lines carry no newline here). -/
def isWsChar (c : Char) : Bool :=
  c = ' ' || c = '\t' || c = '\n' || c = '\r' || c = '\x0b' || c = '\x0c'

/-- `[:：]`. -/
def isColonCh (c : Char) : Bool :=
  c = ':' || c = '：'

/-- `\s*`. -/
def wsStar (cs : List Char) : List Char :=
  cs.dropWhile isWsChar

/-- `\s+`. -/
def wsPlus : List Char → Option (List Char)
  | [] => none
  | c :: rest => if isWsChar c then some (wsStar rest) else none

/-- `[:：]?` directly followed by a non-colon literal: consume if present. -/
def colonOpt (cs : List Char) : List Char :=
  match cs with
  | c :: rest => if isColonCh c then rest else cs
  | [] => cs

/-- `[-–]?`: consume a dash if present. -/
def dashOpt (cs : List Char) : List Char :=
  match cs with
  | c :: rest => if c = '-' || c = '–' then rest else cs
  | [] => cs

/-- `\w+`: a non-empty run of word characters. -/
def wordPlus (cs : List Char) : Option (String × List Char) :=
  let w := cs.takeWhile isWordChar
  if w = [] then none else some (⟨w⟩, cs.dropWhile isWordChar)

/-- The shared tail `` `(\w+)`\s*\((\w+)\)\s*[-–]?\s*(.*) `` of both
parameter patterns, beginning at the opening backtick. -/
def matchParamTail (cs : List Char) : Option (String × String × String) :=
  match cs with
  | '`' :: cs1 =>
    match wordPlus cs1 with
    | none => none
    | some (name, cs2) =>
      match cs2 with
      | '`' :: cs3 =>
        match wsStar cs3 with
        | '(' :: cs4 =>
          match wordPlus cs4 with
          | none => none
          | some (ty, cs5) =>
            match cs5 with
            | ')' :: cs6 =>
              let desc := wsStar (dashOpt (wsStar cs6))
              some (name, ty, ⟨desc⟩)
            | _ => none
        | _ => none
      | _ => none
  | _ => none

/-- `(?:参数|参数名)?[:：]?\s*\*\*[:：]?\s*` followed by the shared tail.
The alternation is tried as the JS engine does: `参数` first, then
`参数名`, then the empty option; the three continuations are mutually
exclusive, so trying them in order is exact. -/
def matchBoldAfterStars (cs : List Char) : Option (String × String × String) :=
  let tail := fun rest =>
    match colonOpt (wsStar rest) with
    | r1 =>
      match r1 with
      | '*' :: '*' :: r2 => matchParamTail (wsStar (colonOpt r2))
      | _ => none
  (match expectChars ['参', '数'] cs with
   | some rest => tail rest
   | none => none) <|>
  (match expectChars ['参', '数', '名'] cs with
   | some rest => tail rest
   | none => none) <|>
  tail cs

/-- `paramRegex` anchored at a start position. -/
def matchBoldAt (cs : List Char) : Option (String × String × String) :=
  match cs with
  | b :: r0 =>
    if b = '-' || b = '*' then
      match wsPlus r0 with
      | some ('*' :: '*' :: r1) => matchBoldAfterStars r1
      | _ => none
    else none
  | [] => none

/-- `altParamRegex` anchored at a start position. -/
def matchAltAt (cs : List Char) : Option (String × String × String) :=
  match cs with
  | b :: r0 =>
    if b = '-' || b = '*' then
      match wsPlus r0 with
      | some r1 => matchParamTail r1
      | none => none
    else none
  | [] => none

/-- Leftmost match of an anchored matcher on a line. -/
def scanMatch (f : List Char → Option (String × String × String)) :
    List Char → Option (String × String × String)
  | [] => f []
  | c :: rest => f (c :: rest) <|> scanMatch f rest

/-- Leftmost `paramRegex` match on a line. -/
def matchBold (line : String) : Option (String × String × String) :=
  scanMatch matchBoldAt line.data

/-- Leftmost `altParamRegex` match on a line. -/
def matchAlt (line : String) : Option (String × String × String) :=
  scanMatch matchAltAt line.data

/-- A parsed parameter: `{type, description, required}`. -/
structure ParamInfo where
  type : String
  description : String
  required : Bool
  deriving DecidableEq

/-- Both passes of the parameter loop of `parseActionsFromMarkdown` over
the lines of one action body.  The bold pass computes
`required: !match[3].includes('可选')`; the plain pass always stores
`required: true` and never overwrites an existing name. -/
def parseParams (lines : List String) : List (String × ParamInfo) :=
  let pass1 := lines.foldl
    (fun ps line =>
      match matchBold line with
      | some (n, t, d) =>
        mapSet ps n
          { type := t, description := jsTrim d, required := ! strIncludes d "可选" }
      | none => ps) []
  lines.foldl
    (fun ps line =>
      match matchAlt line with
      | some (n, t, d) =>
        if (mapGet ps n).isSome then ps
        else mapSet ps n { type := t, description := jsTrim d, required := true }
      | none => ps) pass1

end SkillMd

example : SkillMd.matchBold "- **参数**: `command` (string) - 要执行的命令" =
    some ("command", "string", "要执行的命令") := by decide
example : SkillMd.matchAlt "- `path` (string) - 文件路径，可选" =
    some ("path", "string", "文件路径，可选") := by decide
example : SkillMd.matchBold "- `path` (string) - 文件路径，可选" = none := by decide

/-! ## Helper lemmas on association maps -/

theorem mapGet_eq_none {β : Type} (m : List (String × β)) (k : String)
    (h : k ∉ m.map Prod.fst) : mapGet m k = none := by
  induction m with
  | nil => rfl
  | cons hd tl ih =>
    simp only [List.map_cons, List.mem_cons] at h
    push_neg at h
    simp only [mapGet, if_neg (by simpa using (Ne.symm h.1))]
    exact ih h.2

theorem mapGet_mapDelete_self {β : Type} (m : List (String × β)) (k : String)
    (h : (m.map Prod.fst).Nodup) : mapGet (mapDelete m k) k = none := by
  induction m with
  | nil => rfl
  | cons hd tl ih =>
    simp only [List.map_cons, List.nodup_cons] at h
    by_cases hk : hd.1 = k
    · cases hd with
      | mk k0 v0 =>
        simp only at hk
        simp only [mapDelete, if_pos hk]
        exact mapGet_eq_none tl k (hk ▸ h.1)
    · cases hd with
      | mk k0 v0 =>
        simp only at hk
        simp only [mapDelete, if_neg hk, mapGet, if_neg hk]
        exact ih h.2

theorem mapGet_mapSet_self {β : Type} (m : List (String × β)) (k : String) (v : β) :
    mapGet (mapSet m k v) k = some v := by
  induction m with
  | nil => simp [mapSet, mapGet]
  | cons hd tl ih =>
    cases hd with
    | mk k0 v0 =>
      by_cases hk : k0 = k
      · simp [mapSet, mapGet, hk]
      · simp [mapSet, mapGet, hk, ih]

theorem mapGet_mapSet_other {β : Type} (m : List (String × β)) (k k' : String) (v : β)
    (h : k' ≠ k) : mapGet (mapSet m k v) k' = mapGet m k' := by
  induction m with
  | nil =>
    simp only [mapSet, mapGet]
    rw [if_neg (show ¬ k = k' from fun hkk => h hkk.symm)]
  | cons hd tl ih =>
    cases hd with
    | mk k0 v0 =>
      simp only [mapSet]
      by_cases hk : k0 = k
      · rw [if_pos hk]
        have hne : ¬ k0 = k' := fun hkk => h (hkk ▸ hk)
        simp only [mapGet]
        rw [if_neg hne, if_neg hne]
      · rw [if_neg hk]
        simp only [mapGet]
        by_cases hk' : k0 = k'
        · rw [if_pos hk', if_pos hk']
        · rw [if_neg hk', if_neg hk']
          exact ih

/-! ## Claim C10 -/

/-- C10: `ShortTermMemory.get` on an entry whose TTL has expired deletes
the entry and returns absent, and a later `get` of the same key also
returns absent; `get` on a missing key or on an unexpired entry leaves the
store unchanged and, for an unexpired entry, returns the stored value.
(The source's expiry guard skips a stored expiry of `0` — JS falsiness —
so the expired case assumes `0 < exp`; the final conjunct shows `set`
never stores an expiry of `0`, making that assumption vacuous on
reachable stores.) -/
theorem shortTermGet_ttl_frame {α : Type} (now now2 setNow : Nat)
    (store : ShortTerm.Store α) (key : String) (v : α) (ttl : Option Nat)
    (hkeys : (store.map Prod.fst).Nodup) :
    (∀ e exp, mapGet store key = some e → e.expiresAt = some exp → 0 < exp → exp < now →
       ShortTerm.get now store key = (none, mapDelete store key) ∧
       ShortTerm.get now2 (mapDelete store key) key = (none, mapDelete store key)) ∧
    (mapGet store key = none → ShortTerm.get now store key = (none, store)) ∧
    (∀ e, mapGet store key = some e → e.expiresAt = none →
       ShortTerm.get now store key = (some e.value, store)) ∧
    (∀ e exp, mapGet store key = some e → e.expiresAt = some exp → now ≤ exp →
       ShortTerm.get now store key = (some e.value, store)) ∧
    (∀ e, mapGet (ShortTerm.set setNow store key v ttl) key = some e →
       e.expiresAt ≠ some 0) := by
  refine ⟨?_, ?_, ?_, ?_, ?_⟩
  · intro e exp he hexp hpos hlt
    constructor
    · simp only [ShortTerm.get, he, hexp]
      rw [if_pos ⟨by omega, by omega⟩]
    · simp only [ShortTerm.get, mapGet_mapDelete_self store key hkeys]
  · intro h
    simp [ShortTerm.get, h]
  · intro e he hexp
    simp [ShortTerm.get, he, hexp]
  · intro e exp he hexp hle
    simp only [ShortTerm.get, he, hexp]
    rw [if_neg (by omega)]
  · intro e he
    simp only [ShortTerm.set, mapGet_mapSet_self] at he
    cases he
    cases ttl with
    | none => simp
    | some t =>
      by_cases ht : t = 0
      · simp [ht]
      · show (if t ≠ 0 then some (setNow + t * 1000) else none) ≠ some 0
        rw [if_pos ht]
        intro hcontra
        have : setNow + t * 1000 = 0 := by simpa using hcontra
        omega

/-- Witness for `shortTermGet_ttl_frame` at a concrete store. -/
theorem shortTermGet_ttl_frame_witness :
    ShortTerm.get 5000 [("k", ⟨"old", some 2000⟩)] "k" =
      ((none : Option String), mapDelete [("k", (⟨"old", some 2000⟩ : ShortTerm.Entry String))] "k") ∧
    ShortTerm.get 5000 ([] : ShortTerm.Store String) "k" = (none, []) ∧
    ShortTerm.get 1500 [("k", (⟨"fresh", some 2000⟩ : ShortTerm.Entry String))] "k" =
      (some "fresh", [("k", ⟨"fresh", some 2000⟩)]) := by
  have h := shortTermGet_ttl_frame (α := String) 5000 0 0
    [("k", ⟨"old", some 2000⟩)] "k" "x" none (by decide)
  have h2 := shortTermGet_ttl_frame (α := String) 5000 0 0 ([] : ShortTerm.Store String)
    "k" "x" none (by decide)
  have h3 := shortTermGet_ttl_frame (α := String) 1500 0 0
    [("k", ⟨"fresh", some 2000⟩)] "k" "x" none (by decide)
  refine ⟨(h.1 ⟨"old", some 2000⟩ 2000 (by decide) rfl (by decide) (by decide)).1,
          h2.2.1 (by decide), ?_⟩
  exact h3.2.2.2.1 ⟨"fresh", some 2000⟩ 2000 (by decide) rfl (by decide)

/-! ## Claim C7 -/

theorem failTrace_spec (n : Nat) (hn : 1 ≤ n) :
    Mcp.failTrace Mcp.initialState n =
      { connected := false, reconnectAttempts := n,
        reconnectTimer := some (min (5000 * 2 ^ (n - 1)) Mcp.maxReconnectDelay) } := by
  induction n with
  | zero => omega
  | succ m ih =>
    cases m with
    | zero => decide
    | succ k =>
      have ih' := ih (by omega)
      have hstep : Mcp.failTrace Mcp.initialState (k + 2) =
          Mcp.connectFail (Mcp.timerFire (Mcp.failTrace Mcp.initialState (k + 1))) := rfl
      rw [hstep, ih']
      simp [Mcp.timerFire, Mcp.connectFail, Mcp.scheduleReconnect]

/-- C7: after the `n`-th consecutive failed connection attempt the pending
reconnect delay is exactly `min(5000 * 2^(n-1), 60000)` milliseconds;
`destroy` cancels the pending timer; a successful reconnect resets the
attempt count, so the next failure schedules at 5000 ms again. -/
theorem mcpReconnect_backoff (n : Nat) (hn : 1 ≤ n) :
    (Mcp.failTrace Mcp.initialState n).reconnectTimer =
        some (min (5000 * 2 ^ (n - 1)) 60000) ∧
    (Mcp.destroy (Mcp.failTrace Mcp.initialState n)).reconnectTimer = none ∧
    (Mcp.connectSuccess (Mcp.timerFire
        (Mcp.failTrace Mcp.initialState n))).reconnectAttempts = 0 ∧
    (Mcp.connectFail (Mcp.connectSuccess (Mcp.timerFire
        (Mcp.failTrace Mcp.initialState n)))).reconnectTimer = some 5000 := by
  rw [failTrace_spec n hn]
  refine ⟨rfl, rfl, rfl, ?_⟩
  simp [Mcp.connectFail, Mcp.connectSuccess, Mcp.timerFire, Mcp.scheduleReconnect,
    Mcp.maxReconnectDelay]

/-- Witness for `mcpReconnect_backoff` at `n = 7` (delay capped at
60000 ms). -/
theorem mcpReconnect_backoff_witness :
    (Mcp.failTrace Mcp.initialState 7).reconnectTimer =
        some (min (5000 * 2 ^ (7 - 1)) 60000) ∧
    (Mcp.destroy (Mcp.failTrace Mcp.initialState 7)).reconnectTimer = none ∧
    (Mcp.connectSuccess (Mcp.timerFire
        (Mcp.failTrace Mcp.initialState 7))).reconnectAttempts = 0 ∧
    (Mcp.connectFail (Mcp.connectSuccess (Mcp.timerFire
        (Mcp.failTrace Mcp.initialState 7)))).reconnectTimer = some 5000 :=
  mcpReconnect_backoff 7 (by decide)

/-! ## Claim C6 -/

/-- C6 counterexample: a successful `callTool` response whose content array
holds no text block.  The claim says the raw response is returned; the
source computes `[].join('\n') = ""` and returns the empty string. -/
theorem mcpExtract_counterexample :
    Mcp.extractResult ⟨some [.other "image"]⟩ = .str "" ∧
    Mcp.extractResult ⟨some [.other "image"]⟩ ≠ .raw ⟨some [.other "image"]⟩ := by
  constructor
  · rfl
  · decide

/-- C6 amended: with a content array holding exactly one text block its
text is returned; with a content array holding any other number of text
blocks (including zero) the newline-join of the texts is returned (the
empty string for zero); the raw response is returned only when the
response carries no content array. -/
theorem mcpExtract_amended (r : Mcp.CallToolResult) :
    (∀ blocks s, r.content = some blocks → blocks.filterMap Mcp.textOf = [s] →
       Mcp.extractResult r = .str s) ∧
    (∀ blocks, r.content = some blocks → (blocks.filterMap Mcp.textOf).length ≠ 1 →
       Mcp.extractResult r =
         .str (String.intercalate "\n" (blocks.filterMap Mcp.textOf))) ∧
    (r.content = none → Mcp.extractResult r = .raw r) := by
  refine ⟨?_, ?_, ?_⟩
  · intro blocks s hc hone
    simp [Mcp.extractResult, hc, hone]
  · intro blocks hc hlen
    simp only [Mcp.extractResult, hc]
    rw [if_neg hlen]
  · intro hc
    simp [Mcp.extractResult, hc]

/-- Witness for `mcpExtract_amended` on three concrete responses. -/
theorem mcpExtract_amended_witness :
    Mcp.extractResult ⟨some [.text "hello"]⟩ = .str "hello" ∧
    Mcp.extractResult ⟨some [.text "a", .text "b"]⟩ = .str "a\nb" ∧
    Mcp.extractResult ⟨none⟩ = .raw ⟨none⟩ := by
  refine ⟨?_, ?_, ?_⟩
  · exact (mcpExtract_amended ⟨some [.text "hello"]⟩).1 [.text "hello"] "hello" rfl (by decide)
  · have h := (mcpExtract_amended ⟨some [.text "a", .text "b"]⟩).2.1
      [.text "a", .text "b"] rfl (by decide)
    simpa using h
  · exact (mcpExtract_amended ⟨none⟩).2.2 rfl


/-! ## Claim C5 -/

/-- C5 counterexample: a plain-backtick parameter bullet whose description
carries the marker 可选 is still parsed as required, because the plain-form
pass of `parseActionsFromMarkdown` hard-codes `required: true`. -/
theorem skillParam_counterexample :
    SkillMd.parseParams ["- `path` (string) - 文件路径，可选"] =
      [("path", { type := "string", description := "文件路径，可选",
                  required := true })] ∧
    strIncludes "文件路径，可选" "可选" = true := by
  constructor
  · decide
  · decide

/-- C5 amended: in the bold 参数 form a parameter is required iff its
description does not contain 可选; in the plain backtick form (a line not
matching the bold form) the parameter is always marked required, whatever
its description says. -/
theorem skillParam_amended (line : String) (n t d : String) :
    (SkillMd.matchBold line = some (n, t, d) →
       mapGet (SkillMd.parseParams [line]) n =
         some { type := t, description := jsTrim d,
                required := ! strIncludes d "可选" }) ∧
    (SkillMd.matchBold line = none → SkillMd.matchAlt line = some (n, t, d) →
       mapGet (SkillMd.parseParams [line]) n =
         some { type := t, description := jsTrim d, required := true }) := by
  constructor
  · intro hb
    cases hma : SkillMd.matchAlt line with
    | none =>
      simp only [SkillMd.parseParams, List.foldl_cons, List.foldl_nil, hb, hma]
      simp [mapSet, mapGet]
    | some p =>
      obtain ⟨n', t', d'⟩ := p
      simp only [SkillMd.parseParams, List.foldl_cons, List.foldl_nil, hb, hma]
      by_cases hn : n' = n
      · subst hn
        simp [mapSet, mapGet]
      · have hnone : mapGet (mapSet ([] : List (String × SkillMd.ParamInfo)) n
            { type := t, description := jsTrim d,
              required := ! strIncludes d "可选" }) n' = none := by
          simp only [mapSet, mapGet]
          rw [if_neg (fun h => hn h.symm)]
        rw [hnone]
        simp only [Option.isSome_none, Bool.false_eq_true, if_false]
        rw [mapGet_mapSet_other _ _ _ _ (fun h => hn h.symm)]
        simp [mapSet, mapGet]
  · intro hb hma
    simp only [SkillMd.parseParams, List.foldl_cons, List.foldl_nil, hb, hma]
    simp [mapSet, mapGet]

/-- Witness for `skillParam_amended`: a bold-form bullet with the 可选
marker parses as optional, and one without it as required. -/
theorem skillParam_amended_witness :
    mapGet (SkillMd.parseParams ["- **参数**: `limit` (number) - 最大数量，可选"]) "limit" =
      some { type := "number", description := "最大数量，可选", required := false } ∧
    mapGet (SkillMd.parseParams ["- **参数**: `command` (string) - 要执行的命令"]) "command" =
      some { type := "string", description := "要执行的命令", required := true } := by
  constructor
  · exact ((skillParam_amended "- **参数**: `limit` (number) - 最大数量，可选"
      "limit" "number" "最大数量，可选").1 (by decide)).trans (by decide)
  · exact ((skillParam_amended "- **参数**: `command` (string) - 要执行的命令"
      "command" "string" "要执行的命令").1 (by decide)).trans (by decide)

/-! ## Claim C9 -/

/-- C9: for an existing key, `LongTermMemory.set` rewrites only `content`,
`embedding` and `updated_at` of the rows carrying the key (and touches no
other row); a fresh row inserted by `set` stores empty metadata (`'{}'`)
and no session id. -/
theorem longTermSet_frame (newId : String) (now : Nat)
    (embedFn : Option (String → Option String)) (table : List LongTerm.MemRow)
    (key : String) (v : Json) :
    (table.any (fun r => r.key == some key) = true →
      List.Forall₂ (fun (old new : LongTerm.MemRow) =>
        new.id = old.id ∧ new.key = old.key ∧ new.metadata = old.metadata ∧
        new.session_id = old.session_id ∧ new.created_at = old.created_at ∧
        (old.key ≠ some key → new = old))
        table (LongTerm.set newId now embedFn table key v)) ∧
    (table.any (fun r => r.key == some key) = false →
      LongTerm.set newId now embedFn table key v =
        table ++ [{ id := newId, key := some key,
                    content := LongTerm.encodeValue v,
                    embedding := (match embedFn with
                                  | some f => f (LongTerm.encodeValue v)
                                  | none => none),
                    metadata := "\x7b\x7d", session_id := none,
                    created_at := now, updated_at := now }]) := by
  constructor
  · intro hany
    simp only [LongTerm.set, hany, if_true]
    rw [List.forall₂_map_right_iff]
    rw [List.forall₂_same]
    intro r _
    by_cases hk : r.key = some key
    · simp [hk]
    · have : (r.key == some key) = false := by
        simp [hk]
      simp [this, hk]
  · intro hany
    simp only [LongTerm.set, hany, Bool.false_eq_true, if_false]

/-- Witness for `longTermSet_frame`: one update over an existing row, one
fresh insert. -/
theorem longTermSet_frame_witness :
    List.Forall₂ (fun (old new : LongTerm.MemRow) =>
        new.id = old.id ∧ new.key = old.key ∧ new.metadata = old.metadata ∧
        new.session_id = old.session_id ∧ new.created_at = old.created_at ∧
        (old.key ≠ some "k" → new = old))
      [{ id := "a", key := some "k", content := "old", embedding := none,
         metadata := "\x7b\"tags\":[]\x7d", session_id := some "s1",
         created_at := 7, updated_at := 8 }]
      (LongTerm.set "fresh" 99 none
        [{ id := "a", key := some "k", content := "old", embedding := none,
           metadata := "\x7b\"tags\":[]\x7d", session_id := some "s1",
           created_at := 7, updated_at := 8 }] "k" (.num 1)) ∧
    LongTerm.set "fresh" 99 none [] "k" (.num 1) =
      [{ id := "fresh", key := some "k", content := "1", embedding := none,
         metadata := "\x7b\x7d", session_id := none, created_at := 99,
         updated_at := 99 }] := by
  constructor
  · exact (longTermSet_frame "fresh" 99 none
      [{ id := "a", key := some "k", content := "old", embedding := none,
         metadata := "\x7b\"tags\":[]\x7d", session_id := some "s1",
         created_at := 7, updated_at := 8 }] "k" (.num 1)).1 (by decide)
  · exact ((longTermSet_frame "fresh" 99 none [] "k" (.num 1)).2 (by decide)).trans
      (by decide)

/-! ## Claim C8 -/

/-- C8 counterexample: `set(k, "123")` stores the string verbatim, and
`get(k)` re-parses it as JSON, returning the number `123` instead of the
string that was written. -/
theorem longTermGet_counterexample :
    LongTerm.get (LongTerm.set "id1" 0 none [] "k" (.str "123")) "k" =
      some (.num 123) ∧
    Json.str "123" ≠ Json.num 123 := by
  constructor
  · decide
  · decide

theorem longTerm_get_upd (key : String) (v : Json) (now : Nat)
    (embedFn : Option (String → Option String)) :
    ∀ table : List LongTerm.MemRow,
      table.any (fun r => r.key == some key) = true →
      LongTerm.get (table.map (fun r =>
        if r.key == some key then
          { r with content := LongTerm.encodeValue v,
                   embedding := (match embedFn with
                                 | some f => f (LongTerm.encodeValue v)
                                 | none => none),
                   updated_at := now }
        else r)) key = some (LongTerm.decodeContent (LongTerm.encodeValue v)) := by
  intro table
  induction table with
  | nil => intro h; simp at h
  | cons r tl ih =>
    intro h
    by_cases hk : (r.key == some key) = true
    · simp only [List.map_cons, LongTerm.get, hk, if_true]
      rw [List.find?_cons_of_pos _ (by simpa using hk)]
    · simp only [List.map_cons, LongTerm.get, hk, Bool.false_eq_true, if_false]
      rw [List.find?_cons_of_neg _ (by simpa using hk)]
      have htl : tl.any (fun r => r.key == some key) = true := by
        simp only [List.any_cons, hk, Bool.false_or] at h
        exact h
      have := ih htl
      simpa [LongTerm.get] using this

theorem longTerm_get_set (newId : String) (now : Nat)
    (embedFn : Option (String → Option String)) (table : List LongTerm.MemRow)
    (key : String) (v : Json) :
    LongTerm.get (LongTerm.set newId now embedFn table key v) key =
      some (LongTerm.decodeContent (LongTerm.encodeValue v)) := by
  by_cases hany : table.any (fun r => r.key == some key) = true
  · simp only [LongTerm.set, hany, if_true]
    exact longTerm_get_upd key v now embedFn table hany
  · have hany' : table.any (fun r => r.key == some key) = false := by
      simpa using hany
    simp only [LongTerm.set, hany', Bool.false_eq_true, if_false, LongTerm.get]
    rw [List.find?_append]
    have hnone : table.find? (fun r => r.key == some key) = none := by
      rw [List.find?_eq_none]
      intro x hx
      have hall := List.any_eq_false.mp hany'
      simpa using hall x hx
    rw [hnone]
    simp

/-- C8 amended: after `set(k, v)`, `get(k)` returns the JSON decoding of
the stored encoding of `v` — `JSON.parse` of `v` itself when `v` is a
string, `JSON.parse ∘ JSON.stringify` of `v` otherwise; a later
`set(k, v')` makes `get(k)` return the decoding for `v'` (upsert by key).
`get(k) = v` therefore holds exactly when that decoding round-trips, which
fails for string values that themselves parse as JSON. -/
theorem longTermSet_get (newId newId2 : String) (now now2 : Nat)
    (embedFn : Option (String → Option String)) (table : List LongTerm.MemRow)
    (key : String) (v v' : Json) :
    LongTerm.get (LongTerm.set newId now embedFn table key v) key =
      some (LongTerm.decodeContent (LongTerm.encodeValue v)) ∧
    LongTerm.get (LongTerm.set newId2 now2 embedFn
        (LongTerm.set newId now embedFn table key v) key v') key =
      some (LongTerm.decodeContent (LongTerm.encodeValue v')) ∧
    (LongTerm.decodeContent (LongTerm.encodeValue v) = v →
      LongTerm.get (LongTerm.set newId now embedFn table key v) key = some v) := by
  refine ⟨longTerm_get_set newId now embedFn table key v,
          longTerm_get_set newId2 now2 embedFn _ key v', ?_⟩
  intro hrt
  rw [longTerm_get_set newId now embedFn table key v, hrt]

/-- Witness for `longTermSet_get` on a concrete table and values. -/
theorem longTermSet_get_witness :
    LongTerm.get (LongTerm.set "i1" 1 none [] "k" (.num 7)) "k" =
      some (LongTerm.decodeContent (LongTerm.encodeValue (.num 7))) ∧
    LongTerm.get (LongTerm.set "i2" 2 none
        (LongTerm.set "i1" 1 none [] "k" (.num 7)) "k" (.str "hello")) "k" =
      some (LongTerm.decodeContent (LongTerm.encodeValue (.str "hello"))) ∧
    (LongTerm.decodeContent (LongTerm.encodeValue (.num 7)) = .num 7 →
      LongTerm.get (LongTerm.set "i1" 1 none [] "k" (.num 7)) "k" =
        some (.num 7)) :=
  longTermSet_get "i1" "i2" 1 2 none [] "k" (.num 7) (.str "hello")

/-! ## Claim C2 -/

/-- C2 counterexample: a tool call whose arguments fail to parse.
`JSON.parse(toolCall.function.arguments)` runs outside the `try` block, so
the thrown `SyntaxError` propagates out of the loop: the run is aborted by
a tool-side failure instead of producing an `"Error: ..."` observation. -/
theorem agentLoop_counterexample :
    AgentLoop.processToolCalls
      { hasLongTermMemory := false
        exec := fun _ _ => .ok "ok"
        remember := fun _ _ => .ok "m1"
        search := fun _ _ => .ok [] }
      [{ id := "call_1", name := "file-manager.read_file", arguments := "\x7b" }] =
      .error "Unexpected token in JSON: \x7b" := by
  rfl

/-- C2 amended: for a regular (non-built-in) tool call whose arguments
parse, an error thrown by the registry execution (including the 60-second
timeout) yields an `"Error: <message>"` observation and an appended
tool-role reply carrying that call's id, and the loop proceeds to the
remaining tool calls; a failure to parse a tool call's arguments, however,
throws out of the loop and aborts the run. -/
theorem agentLoop_amended (env : AgentLoop.AgentEnv) (tc : AgentLoop.ToolCall)
    (rest : List AgentLoop.ToolCall) (params : Json) (e : String)
    (hparse : jsonParse tc.arguments = some params)
    (hplan : ¬ tc.name = "plan_task")
    (hrem : ¬(tc.name = "memory_remember" ∧ env.hasLongTermMemory = true))
    (hrec : ¬(tc.name = "memory_recall" ∧ env.hasLongTermMemory = true))
    (hexec : env.exec tc.name params = .error e) :
    AgentLoop.processToolCalls env (tc :: rest) =
      (AgentLoop.processToolCalls env rest).map (fun p =>
        ([.action tc.name params, .observation ("Error: " ++ e)] ++ p.1,
         ({ content := "Error: " ++ e, toolCallId := tc.id } : AgentLoop.ToolMsg) :: p.2)) := by
  have hhandle : AgentLoop.handleToolCall env tc =
      .ok ([.action tc.name params, .observation ("Error: " ++ e)],
           [{ content := "Error: " ++ e, toolCallId := tc.id }]) := by
    rw [AgentLoop.handleToolCall, hparse]
    simp only [if_neg hplan, if_neg hrem, if_neg hrec, hexec]
  rw [AgentLoop.processToolCalls, hhandle]
  cases hrest : AgentLoop.processToolCalls env rest with
  | error e' => rfl
  | ok p =>
    obtain ⟨steps', msgs'⟩ := p
    rfl

/-- Witness for `agentLoop_amended`: a concrete failing skill execution is
surfaced as an observation and the loop finishes normally. -/
theorem agentLoop_amended_witness :
    AgentLoop.processToolCalls
      { hasLongTermMemory := true
        exec := fun _ _ => .error "boom"
        remember := fun _ _ => .ok "m1"
        search := fun _ _ => .ok [] }
      [{ id := "c1", name := "shell.execute", arguments := "\x7b\"cmd\":1\x7d" }] =
      .ok ([.action "shell.execute" (.obj (.cons "cmd" (.num 1) .nil)),
            .observation "Error: boom"],
           [{ content := "Error: boom", toolCallId := "c1" }]) := by
  have h := agentLoop_amended
    { hasLongTermMemory := true
      exec := fun _ _ => .error "boom"
      remember := fun _ _ => .ok "m1"
      search := fun _ _ => .ok [] }
    { id := "c1", name := "shell.execute", arguments := "\x7b\"cmd\":1\x7d" }
    [] (.obj (.cons "cmd" (.num 1) .nil)) "boom"
    (by decide) (by decide) (by simp) (by simp) rfl
  exact h.trans rfl

/-! ## Claim C4 -/

/-- C4: evaluation of the DAG executor at the failing input.  Task `A`
carries a `{tool, params}` description and the registry dispatch throws
(`exec` returns an error); the claim and the source's own `task_failed`
machinery say `A` must be marked failed with the error stored.  Instead
the `catch` inside `executeTask` — written for non-JSON descriptions —
swallows the awaited dispatch error, the function returns
`"Task noted: <description>"`, and the round marks `A` completed; no task
of the round ever reaches `failed`.  The dependent `B` is even freed for
the next round. -/
theorem dagExecutor_swallows_error :
    Dag.executeRound (fun _ _ => .error "boom")
      [{ id := "A", session_id := "s",
         description := "\x7b\"tool\":\"shell.execute\",\"params\":\x7b\x7d\x7d",
         status := .pending, dependencies := [], result := none },
       { id := "B", session_id := "s", description := "after A",
         status := .pending, dependencies := ["A"], result := none }] "s" =
      [{ id := "A", session_id := "s",
         description := "\x7b\"tool\":\"shell.execute\",\"params\":\x7b\x7d\x7d",
         status := .completed, dependencies := [],
         result := some "Task noted: \x7b\"tool\":\"shell.execute\",\"params\":\x7b\x7d\x7d" },
       { id := "B", session_id := "s", description := "after A",
         status := .pending, dependencies := ["A"], result := none }] ∧
    (∀ t ∈ Dag.executeRound (fun _ _ => .error "boom")
      [{ id := "A", session_id := "s",
         description := "\x7b\"tool\":\"shell.execute\",\"params\":\x7b\x7d\x7d",
         status := .pending, dependencies := [], result := none },
       { id := "B", session_id := "s", description := "after A",
         status := .pending, dependencies := ["A"], result := none }] "s",
      t.status ≠ .failed) := by
  constructor
  · decide
  · decide

/-! ## Claim C3 -/

set_option maxRecDepth 4000 in
/-- C3 counterexample: a configuration where the fixed parts are well
under budget, yet the trimmed output exceeds `maxTokens − reservedTokens`:
the keep-at-least-two rule retains the last two history messages (60
tokens against a 40-token budget) and a summary message is added on top. -/
theorem ctxTrim_counterexample :
    (Ctx.estimateTokens
      [{ role := .system, content := "abc" }, { role := .user, content := "hi" }]
      : Int) < (40 : Int) - 0 ∧
    (Ctx.estimateTokens (Ctx.trimMessages 40 0
      { role := .system, content := "abc" }
      [{ role := .user, content := (⟨List.replicate 90 'a'⟩ : String) },
       { role := .user, content := (⟨List.replicate 90 'a'⟩ : String) },
       { role := .user, content := (⟨List.replicate 90 'a'⟩ : String) }]
      [{ role := .user, content := "hi" }]) : Int) > (40 : Int) - 0 := by
  constructor
  · decide
  · decide

/-- C3 amended: when the fixed parts alone meet or exceed the budget the
output is exactly the system message followed by the current-turn
messages; when they fit and the history also fits the remaining budget,
the output is the untrimmed message list and its token estimate stays
within `maxTokens − reservedTokens`.  When trimming is triggered the bound
can be exceeded (the keep-at-least-two rule and the added summary message
are not budgeted), as the counterexample shows. -/
theorem ctxTrim_amended (maxTokens reservedTokens : Nat)
    (systemMessage : Ctx.Message) (history currentMessages : List Ctx.Message) :
    ((Ctx.estimateTokens (systemMessage :: currentMessages) : Int) ≥
        (maxTokens : Int) - (reservedTokens : Int) →
      Ctx.trimMessages maxTokens reservedTokens systemMessage history currentMessages =
        systemMessage :: currentMessages) ∧
    ((Ctx.estimateTokens (systemMessage :: currentMessages) : Int) <
        (maxTokens : Int) - (reservedTokens : Int) →
      (Ctx.estimateTokens history : Int) ≤
        (maxTokens : Int) - (reservedTokens : Int) -
          (Ctx.estimateTokens (systemMessage :: currentMessages) : Int) →
      Ctx.trimMessages maxTokens reservedTokens systemMessage history currentMessages =
        systemMessage :: (history ++ currentMessages) ∧
      (Ctx.estimateTokens (Ctx.trimMessages maxTokens reservedTokens systemMessage
          history currentMessages) : Int) ≤
        (maxTokens : Int) - (reservedTokens : Int)) := by
  constructor
  · intro hfix
    rw [Ctx.trimMessages]
    rw [if_pos hfix]
  · intro hfix hhist
    have heq : Ctx.trimMessages maxTokens reservedTokens systemMessage history
        currentMessages = systemMessage :: (history ++ currentMessages) := by
      rw [Ctx.trimMessages]
      rw [if_neg (by omega), if_pos (by omega)]
    refine ⟨heq, ?_⟩
    rw [heq]
    have hsplit : Ctx.estimateTokens (systemMessage :: (history ++ currentMessages)) =
        Ctx.estimateTokens (systemMessage :: currentMessages) +
          Ctx.estimateTokens history := by
      simp [Ctx.estimateTokens, List.map_append, List.sum_append]
      ring
    rw [hsplit]
    push_cast
    omega

/-- Witness for `ctxTrim_amended`: one over-budget fixed part, one
everything-fits configuration. -/
theorem ctxTrim_amended_witness :
    Ctx.trimMessages 1 0 { role := .system, content := "abcdef" } [] [] =
      [{ role := .system, content := "abcdef" }] ∧
    Ctx.trimMessages 100 10 { role := .system, content := "abc" }
        [{ role := .user, content := "hello" }] [{ role := .user, content := "hi" }] =
      ({ role := .system, content := "abc" } : Ctx.Message) ::
        ([{ role := .user, content := "hello" }] ++ [{ role := .user, content := "hi" }]) ∧
    (Ctx.estimateTokens (Ctx.trimMessages 100 10 { role := .system, content := "abc" }
        [{ role := .user, content := "hello" }] [{ role := .user, content := "hi" }]) : Int) ≤
      (100 : Int) - (10 : Int) := by
  refine ⟨(ctxTrim_amended 1 0 { role := .system, content := "abcdef" } [] []).1 (by decide),
          ?_, ?_⟩
  · exact ((ctxTrim_amended 100 10 { role := .system, content := "abc" }
      [{ role := .user, content := "hello" }] [{ role := .user, content := "hi" }]).2
      (by decide) (by decide)).1
  · exact ((ctxTrim_amended 100 10 { role := .system, content := "abc" }
      [{ role := .user, content := "hello" }] [{ role := .user, content := "hi" }]).2
      (by decide) (by decide)).2

/-! ## Claim C1: helper lemmas -/

theorem mapSet_of_not_mem {β : Type} (m : List (String × β)) (k : String) (v : β)
    (h : k ∉ m.map Prod.fst) : mapSet m k v = m ++ [(k, v)] := by
  induction m with
  | nil => rfl
  | cons hd tl ih =>
    simp only [List.map_cons, List.mem_cons] at h
    push_neg at h
    cases hd with
    | mk k0 v0 =>
      simp only at h
      simp only [mapSet, if_neg (show ¬ k0 = k from fun e => h.1 e.symm)]
      rw [ih h.2]
      simp

theorem mapSet_keys_of_mem {β : Type} (m : List (String × β)) (k : String) (v : β)
    (h : k ∈ m.map Prod.fst) : (mapSet m k v).map Prod.fst = m.map Prod.fst := by
  induction m with
  | nil => simp at h
  | cons hd tl ih =>
    cases hd with
    | mk k0 v0 =>
      by_cases hk : k0 = k
      · simp [mapSet, hk]
      · simp only [List.map_cons, List.mem_cons] at h
        rcases h with h | h
        · exact absurd h.symm hk
        · simp [mapSet, hk, ih h]

theorem mapSet_mem {β : Type} (m : List (String × β)) (k : String) (v : β) :
    ∀ e ∈ mapSet m k v, e = (k, v) ∨ e ∈ m := by
  induction m with
  | nil => intro e he; simp [mapSet] at he; left; exact he
  | cons hd tl ih =>
    intro e he
    cases hd with
    | mk k0 v0 =>
      by_cases hk : k0 = k
      · simp only [mapSet, if_pos hk, List.mem_cons] at he
        rcases he with he | he
        · left; rw [he, hk]
        · right; simp [he]
      · simp only [mapSet, if_neg hk, List.mem_cons] at he
        rcases he with he | he
        · right; simp [he]
        · rcases ih e he with h | h
          · left; exact h
          · right; simp [h]

theorem eraseStr_eq_erase (l : List String) (x : String) : eraseStr l x = l.erase x := by
  induction l with
  | nil => rfl
  | cons y tl ih =>
    by_cases h : y = x
    · simp [eraseStr, h, List.erase_cons]
    · simp [eraseStr, h, List.erase_cons, ih]

theorem mapDelete_keys {β : Type} (m : List (String × β)) (k : String) :
    (mapDelete m k).map Prod.fst = (m.map Prod.fst).erase k := by
  induction m with
  | nil => rfl
  | cons hd tl ih =>
    cases hd with
    | mk k0 v0 =>
      by_cases hk : k0 = k
      · simp [mapDelete, hk, List.erase_cons]
      · simp [mapDelete, hk, List.erase_cons, ih]

theorem mapDelete_mem {β : Type} (m : List (String × β)) (k : String) :
    ∀ e ∈ mapDelete m k, e ∈ m := by
  induction m with
  | nil => intro e he; simp [mapDelete] at he
  | cons hd tl ih =>
    intro e he
    cases hd with
    | mk k0 v0 =>
      by_cases hk : k0 = k
      · simp only [mapDelete, if_pos hk] at he
        simp [he]
      · simp only [mapDelete, if_neg hk, List.mem_cons] at he
        rcases he with he | he
        · simp [he]
        · simp [ih e he]

theorem insertByTime_perm (x : String × Nat) (l : List (String × Nat)) :
    List.Perm (SessionMgr.insertByTime x l) (x :: l) := by
  induction l with
  | nil => rfl
  | cons y tl ih =>
    by_cases h : x.2 < y.2
    · simp [SessionMgr.insertByTime, h]
    · simp only [SessionMgr.insertByTime, if_neg h]
      exact (ih.cons y).trans (List.Perm.swap x y tl)

theorem insertByTime_of_max (x : String × Nat) (l : List (String × Nat))
    (h : ∀ y ∈ l, y.2 ≤ x.2) : SessionMgr.insertByTime x l = l ++ [x] := by
  induction l with
  | nil => rfl
  | cons y tl ih =>
    have hy : y.2 ≤ x.2 := h y (by simp)
    have hnl : ¬ x.2 < y.2 := by omega
    simp only [SessionMgr.insertByTime, if_neg hnl]
    rw [ih (fun z hz => h z (by simp [hz]))]
    simp

theorem sortFold_perm (l : List (String × Nat)) :
    ∀ acc : List (String × Nat),
      List.Perm (l.foldl (fun a x => SessionMgr.insertByTime x a) acc) (acc ++ l) := by
  induction l with
  | nil => intro acc; simp
  | cons x tl ih =>
    intro acc
    simp only [List.foldl_cons]
    refine (ih (SessionMgr.insertByTime x acc)).trans ?_
    have h2 : List.Perm (SessionMgr.insertByTime x acc ++ tl) ((x :: acc) ++ tl) :=
      (insertByTime_perm x acc).append_right tl
    refine h2.trans ?_
    simpa using List.perm_middle.symm

theorem sortByTime_perm (l : List (String × Nat)) :
    List.Perm (SessionMgr.sortByTime l) l := by
  simpa using sortFold_perm l []

theorem sortByTime_append_max (l : List (String × Nat)) (x : String × Nat)
    (h : ∀ y ∈ l, y.2 ≤ x.2) :
    SessionMgr.sortByTime (l ++ [x]) = SessionMgr.sortByTime l ++ [x] := by
  show (l ++ [x]).foldl (fun a y => SessionMgr.insertByTime y a) [] = _
  rw [List.foldl_append]
  simp only [List.foldl_cons, List.foldl_nil]
  exact insertByTime_of_max x _ (fun y hy => h y ((sortByTime_perm l).mem_iff.mp hy))

theorem evictFold_spec (D : List String) :
    ∀ (s : SessionMgr.ManagerState) (id : String),
      s.accessOrder.map Prod.fst = s.sessions ++ [id] →
      s.sessions.Nodup → id ∉ s.sessions →
      D.Nodup → (∀ d ∈ D, d ∈ s.sessions) →
      ((D.foldl (fun st i => SessionMgr.deleteSession st i) s).accessOrder.map Prod.fst =
        (D.foldl (fun st i => SessionMgr.deleteSession st i) s).sessions ++ [id]) ∧
      (D.foldl (fun st i => SessionMgr.deleteSession st i) s).sessions.Nodup ∧
      id ∉ (D.foldl (fun st i => SessionMgr.deleteSession st i) s).sessions ∧
      (D.foldl (fun st i => SessionMgr.deleteSession st i) s).sessions.length + D.length =
        s.sessions.length ∧
      (∀ e ∈ (D.foldl (fun st i => SessionMgr.deleteSession st i) s).accessOrder,
        e ∈ s.accessOrder) ∧
      (D.foldl (fun st i => SessionMgr.deleteSession st i) s).maxSessions = s.maxSessions := by
  induction D with
  | nil =>
    intro s id hkeys hnodup hid _ _
    exact ⟨hkeys, hnodup, hid, by simp, fun e he => he, rfl⟩
  | cons d D' ih =>
    intro s id hkeys hnodup hid hDnodup hDsub
    simp only [List.foldl_cons]
    have hdmem : d ∈ s.sessions := hDsub d (by simp)
    have hsess1 : (SessionMgr.deleteSession s d).sessions = s.sessions.erase d := by
      simp [SessionMgr.deleteSession, eraseStr_eq_erase]
    have hkeys1 : (SessionMgr.deleteSession s d).accessOrder.map Prod.fst =
        (SessionMgr.deleteSession s d).sessions ++ [id] := by
      show (mapDelete s.accessOrder d).map Prod.fst = eraseStr s.sessions d ++ [id]
      rw [mapDelete_keys, hkeys, eraseStr_eq_erase]
      exact List.erase_append_left _ hdmem
    have hnodup1 : (SessionMgr.deleteSession s d).sessions.Nodup := by
      rw [hsess1]; exact hnodup.erase d
    have hid1 : id ∉ (SessionMgr.deleteSession s d).sessions := by
      rw [hsess1]
      intro hmem
      exact hid (List.erase_subset _ _ hmem)
    have hDnodup' : D'.Nodup := (List.nodup_cons.mp hDnodup).2
    have hdnotin : d ∉ D' := (List.nodup_cons.mp hDnodup).1
    have hDsub' : ∀ d' ∈ D', d' ∈ (SessionMgr.deleteSession s d).sessions := by
      intro d' hd'
      rw [hsess1]
      have hne : d' ≠ d := fun e => hdnotin (e ▸ hd')
      exact (List.mem_erase_of_ne hne).mpr (hDsub d' (by simp [hd']))
    obtain ⟨c1, c2, c3, c4, c5, c6⟩ :=
      ih (SessionMgr.deleteSession s d) id hkeys1 hnodup1 hid1 hDnodup' hDsub'
    refine ⟨c1, c2, c3, ?_, ?_, ?_⟩
    · have hlen1 : (SessionMgr.deleteSession s d).sessions.length + 1 =
          s.sessions.length := by
        rw [hsess1]
        have := List.length_erase_of_mem hdmem
        have hpos : 1 ≤ s.sessions.length := List.length_pos_of_mem hdmem
        omega
      simp only [List.length_cons]
      omega
    · intro e he
      have := c5 e he
      exact mapDelete_mem _ _ e this
    · rw [c6]; rfl

theorem getSession_inv (s : SessionMgr.ManagerState) (t t' : Nat) (id : String)
    (hmax : 1 ≤ s.maxSessions)
    (hkeys : s.accessOrder.map Prod.fst = s.sessions)
    (hnodup : s.sessions.Nodup)
    (hts : ∀ e ∈ s.accessOrder, e.2 ≤ t)
    (hbound : s.sessions.length ≤ s.maxSessions)
    (ht : t ≤ t') :
    (SessionMgr.getSession t' id s).accessOrder.map Prod.fst =
      (SessionMgr.getSession t' id s).sessions ∧
    (SessionMgr.getSession t' id s).sessions.Nodup ∧
    (∀ e ∈ (SessionMgr.getSession t' id s).accessOrder, e.2 ≤ t') ∧
    (SessionMgr.getSession t' id s).sessions.length ≤ s.maxSessions ∧
    (SessionMgr.getSession t' id s).maxSessions = s.maxSessions ∧
    (id ∉ s.sessions → s.maxSessions ≤ s.sessions.length →
      (SessionMgr.getSession t' id s).sessions.length + max 1 (s.maxSessions / 10) =
        s.sessions.length + 1) := by
  obtain ⟨se, ao, mx⟩ := s
  dsimp only at hmax hkeys hnodup hts hbound ⊢
  by_cases hc : id ∈ se
  · have hgs : SessionMgr.getSession t' id ⟨se, ao, mx⟩ = ⟨se, mapSet ao id t', mx⟩ := by
      simp only [SessionMgr.getSession]
      rw [if_pos hc]
    rw [hgs]
    refine ⟨?_, hnodup, ?_, hbound, rfl, ?_⟩
    · show (mapSet ao id t').map Prod.fst = se
      rw [mapSet_keys_of_mem ao id t' (by rw [hkeys]; exact hc)]
      exact hkeys
    · intro e he
      rcases mapSet_mem ao id t' e he with h | h
      · rw [h]
      · exact le_trans (hts e h) ht
    · intro habs _
      exact absurd hc habs
  · have hA : mapSet ao id t' = ao ++ [(id, t')] :=
      mapSet_of_not_mem ao id t' (by rw [hkeys]; exact hc)
    by_cases hful : mx ≤ se.length
    · have hgs : SessionMgr.getSession t' id ⟨se, ao, mx⟩ =
          { SessionMgr.evictLRU ⟨se, ao ++ [(id, t')], mx⟩ with
            sessions := (SessionMgr.evictLRU ⟨se, ao ++ [(id, t')], mx⟩).sessions ++ [id] } := by
        simp only [SessionMgr.getSession, hA]
        rw [if_neg hc, if_pos (show se.length ≥ mx from hful)]
      have hsorted : SessionMgr.sortByTime (ao ++ [(id, t')]) =
          SessionMgr.sortByTime ao ++ [(id, t')] :=
        sortByTime_append_max ao (id, t') (fun y hy => le_trans (hts y hy) ht)
      have hsortlen : (SessionMgr.sortByTime ao).length = se.length := by
        rw [(sortByTime_perm ao).length_eq, ← hkeys, List.length_map]
      have htoE_le : max 1 (mx / 10) ≤ se.length := by
        have hdiv : mx / 10 ≤ mx := Nat.div_le_self _ _
        omega
      have hevict : SessionMgr.evictLRU ⟨se, ao ++ [(id, t')], mx⟩ =
          (((SessionMgr.sortByTime ao).take (max 1 (mx / 10))).map Prod.fst).foldl
            (fun st i => SessionMgr.deleteSession st i) ⟨se, ao ++ [(id, t')], mx⟩ := by
        simp only [SessionMgr.evictLRU]
        rw [hsorted, List.take_append_of_le_length (by omega)]
      have hkperm : List.Perm ((SessionMgr.sortByTime ao).map Prod.fst) se := by
        have h := (sortByTime_perm ao).map Prod.fst
        rw [hkeys] at h
        exact h
      have hDnodup : (((SessionMgr.sortByTime ao).take (max 1 (mx / 10))).map Prod.fst).Nodup := by
        rw [List.map_take]
        exact (hkperm.nodup_iff.mpr hnodup).sublist (List.take_sublist _ _)
      have hDsub : ∀ d ∈ ((SessionMgr.sortByTime ao).take (max 1 (mx / 10))).map Prod.fst,
          d ∈ se := by
        intro d hd
        rw [List.map_take] at hd
        exact hkperm.mem_iff.mp (List.mem_of_mem_take hd)
      have hDlen : (((SessionMgr.sortByTime ao).take (max 1 (mx / 10))).map Prod.fst).length =
          max 1 (mx / 10) := by
        simp only [List.length_map, List.length_take, hsortlen]
        omega
      obtain ⟨c1, c2, c3, c4, c5, c6⟩ := evictFold_spec
        (((SessionMgr.sortByTime ao).take (max 1 (mx / 10))).map Prod.fst)
        ⟨se, ao ++ [(id, t')], mx⟩ id
        (by show (ao ++ [(id, t')]).map Prod.fst = se ++ [id]
            rw [List.map_append, hkeys]
            rfl)
        hnodup hc hDnodup hDsub
      rw [hgs, hevict]
      rw [hDlen] at c4
      dsimp only at c4 c6
      refine ⟨c1, ?_, ?_, ?_, c6, ?_⟩
      · refine List.Nodup.append c2 (List.nodup_singleton id) ?_
        intro a ha hmem
        rw [List.mem_singleton] at hmem
        exact c3 (hmem ▸ ha)
      · intro e he
        have hmem := c5 e he
        rcases List.mem_append.mp hmem with h | h
        · exact le_trans (hts e h) ht
        · rw [List.mem_singleton] at h
          rw [h]
      · simp only [List.length_append, List.length_singleton]
        omega
      · intro _ _
        simp only [List.length_append, List.length_singleton]
        omega
    · have hgs : SessionMgr.getSession t' id ⟨se, ao, mx⟩ =
          ⟨se ++ [id], ao ++ [(id, t')], mx⟩ := by
        simp only [SessionMgr.getSession, hA]
        rw [if_neg hc, if_neg (show ¬ se.length ≥ mx from by omega)]
      rw [hgs]
      refine ⟨?_, ?_, ?_, ?_, rfl, ?_⟩
      · show (ao ++ [(id, t')]).map Prod.fst = se ++ [id]
        rw [List.map_append, hkeys]
        rfl
      · refine List.Nodup.append hnodup (List.nodup_singleton id) ?_
        intro a ha hmem
        rw [List.mem_singleton] at hmem
        exact hc (hmem ▸ ha)
      · intro e he
        rcases List.mem_append.mp he with h | h
        · exact le_trans (hts e h) ht
        · rw [List.mem_singleton] at h
          rw [h]
      · simp only [List.length_append, List.length_singleton]
        omega
      · intro _ habs
        omega

theorem runFold_inv (calls : List (Nat × String)) :
    ∀ (s : SessionMgr.ManagerState) (t : Nat),
      1 ≤ s.maxSessions →
      s.accessOrder.map Prod.fst = s.sessions →
      s.sessions.Nodup →
      (∀ e ∈ s.accessOrder, e.2 ≤ t) →
      s.sessions.length ≤ s.maxSessions →
      List.Chain (fun a b => a ≤ b) t (calls.map Prod.fst) →
      (calls.foldl (fun st c => SessionMgr.getSession c.1 c.2 st) s).sessions.length ≤
        s.maxSessions := by
  induction calls with
  | nil =>
    intro s t _ _ _ _ hb _
    simpa using hb
  | cons c rest ih =>
    intro s t hmax hkeys hnodup hts hbound hchain
    simp only [List.map_cons] at hchain
    cases hchain with
    | cons hle hchain' =>
      simp only [List.foldl_cons]
      obtain ⟨i1, i2, i3, i4, i5, _⟩ :=
        getSession_inv s t c.1 c.2 hmax hkeys hnodup hts hbound hle
      have hres := ih (SessionMgr.getSession c.1 c.2 s) c.1
        (by rw [i5]; exact hmax) i1 i2 i3 (by rw [i5]; exact i4) hchain'
      rw [i5] at hres
      exact hres

/-- C1 counterexample.  With `maxSessions = 15` and fifteen live sessions,
creating a sixteenth evicts `Math.max(1, Math.floor(15 * 0.1)) = 1`
session — not the `max(1, ceil(15/10)) = 2` the claim's "rounded up"
batch demands — so 15 sessions remain where the claim implies 14.  And
with `maxSessions = 0` a single `getSession` leaves 1 > 0 stored sessions,
because the eviction batch deletes the just-touched id itself. -/
theorem sessionLRU_counterexample :
    (SessionMgr.runCalls 15
      [(0, "s0"), (1, "s1"), (2, "s2"), (3, "s3"), (4, "s4"), (5, "s5"), (6, "s6"),
       (7, "s7"), (8, "s8"), (9, "s9"), (10, "s10"), (11, "s11"), (12, "s12"),
       (13, "s13"), (14, "s14")]).sessions.length = 15 ∧
    (SessionMgr.getSession 15 "s15" (SessionMgr.runCalls 15
      [(0, "s0"), (1, "s1"), (2, "s2"), (3, "s3"), (4, "s4"), (5, "s5"), (6, "s6"),
       (7, "s7"), (8, "s8"), (9, "s9"), (10, "s10"), (11, "s11"), (12, "s12"),
       (13, "s13"), (14, "s14")])).sessions.length = 15 ∧
    SessionMgr.claimedEvictCount 15 = 2 ∧
    15 + 1 - SessionMgr.claimedEvictCount 15 ≠ 15 ∧
    (SessionMgr.runCalls 0 [(0, "a")]).sessions.length = 1 := by
  refine ⟨by decide, by decide, by decide, by decide, by decide⟩

/-- C1 amended: for `maxSessions ≥ 1` and any sequence of `getSession`
calls with non-decreasing `Date.now()` timestamps, the number of stored
sessions never exceeds `maxSessions` after a `getSession` completes; when
creating a session while at (or beyond) the cap, the manager evicts
exactly `max(1, floor(maxSessions * 0.1))` sessions — the bottom 10%
rounded **down**, minimum 1 — by oldest access time before allocating. -/
theorem sessionLRU_amended :
    (∀ (maxSessions : Nat) (calls : List (Nat × String)),
       1 ≤ maxSessions →
       calls.Chain' (fun a b => a.1 ≤ b.1) →
       (SessionMgr.runCalls maxSessions calls).sessions.length ≤ maxSessions) ∧
    (∀ (s : SessionMgr.ManagerState) (t' : Nat) (id : String),
       1 ≤ s.maxSessions →
       s.accessOrder.map Prod.fst = s.sessions →
       s.sessions.Nodup →
       (∀ e ∈ s.accessOrder, e.2 ≤ t') →
       s.sessions.length ≤ s.maxSessions →
       id ∉ s.sessions →
       s.maxSessions ≤ s.sessions.length →
       (SessionMgr.getSession t' id s).sessions.length + max 1 (s.maxSessions / 10) =
         s.sessions.length + 1) := by
  constructor
  · intro maxSessions calls hmax hchain
    have hchain0 : List.Chain (fun a b => a ≤ b) 0 (calls.map Prod.fst) := by
      have h' : (calls.map Prod.fst).Chain' (fun a b => a ≤ b) :=
        (List.chain'_map Prod.fst).mpr hchain
      cases hcs : calls.map Prod.fst with
      | nil => exact List.Chain.nil
      | cons x xs =>
        rw [hcs] at h'
        exact List.Chain.cons (Nat.zero_le x) h'
    exact runFold_inv calls (SessionMgr.initialManager maxSessions) 0 hmax rfl
      List.nodup_nil (by intro e he; simp [SessionMgr.initialManager] at he)
      (by simp [SessionMgr.initialManager]) hchain0
  · intro s t' id hmax hkeys hnodup hts hbound hid hful
    exact (getSession_inv s t' t' id hmax hkeys hnodup hts hbound (le_refl t')).2.2.2.2.2
      hid hful

/-- Witness for `sessionLRU_amended` on concrete traces: the bound after
three calls with cap 2, and the exact eviction count when a third session
is created at a cap of 2. -/
theorem sessionLRU_amended_witness :
    (SessionMgr.runCalls 2 [(0, "a"), (1, "b"), (2, "c")]).sessions.length ≤ 2 ∧
    (SessionMgr.getSession 3 "d"
        ⟨["a", "b"], [("a", 1), ("b", 2)], 2⟩).sessions.length + max 1 (2 / 10) =
      2 + 1 := by
  constructor
  · exact sessionLRU_amended.1 2 [(0, "a"), (1, "b"), (2, "c")] (by decide)
      (List.Chain.cons (by decide) (List.Chain.cons (by decide) List.Chain.nil))
  · exact sessionLRU_amended.2 ⟨["a", "b"], [("a", 1), ("b", 2)], 2⟩ 3 "d"
      (by decide) (by decide) (by decide) (by decide) (by decide) (by decide) (by decide)
